import Mathlib

/-!
# Verification of the Gomoku game state engine

A shallow embedding of the Go sources of the `gomoku` repository
(`internal/game/rules.go`, `internal/game/move.go`) together with proofs of
the specification's claims about coordinate parsing, move validation, turn
alternation, win/draw detection, and the board-content hash that gates the
derived-analysis cache.

Modelling conventions:
- Go strings are Lean `String`s (sequences of Unicode scalar values); Go's
  byte-level `len` is modelled by the UTF-8 byte count `utf8Len`.
- The mutating method `(*GameState).MakeMove` is rendered functionally as
  `GameState.MakeMove : GameState → String → Option String × GameState`,
  returning the error (if any) together with the state as the method leaves
  its receiver.
- Loops are rendered as structural recursions; where a Go loop has no
  syntactic bound, a fuel argument large enough to be exact is used and the
  choice is justified in a comment.
- `crypto/md5` and the relevant fragment of `fmt` (`Sscanf` with `%02d`,
  `Sprintf` with `%c`/`%d`/`%02d`) are transcribed from their documented
  behaviour, since the Go standard library is external to the repository.
-/

namespace Gomoku

/-! ## MD5 digest (RFC 1321), over byte lists represented as `Nat`s below 256

`rules.go` hashes board contents with `crypto/md5` and formats the sum with
`%x`; this is a direct functional transcription of MD5. -/

def w32mask : Nat := 4294967295

/-- Truncate to a 32-bit word. -/
def w32 (n : Nat) : Nat := n % 4294967296

/-- 32-bit left rotation (input below `2 ^ 32`; the two summands occupy
disjoint bit ranges). -/
def rotl32 (a s : Nat) : Nat := w32 (a <<< s) + (a >>> (32 - s))

/-- The 64 MD5 round constants `floor (abs (sin (i + 1)) * 2 ^ 32)`. -/
def md5K : List Nat :=
  [3614090360, 3905402710, 606105819, 3250441966, 4118548399, 1200080426,
   2821735955, 4249261313, 1770035416, 2336552879, 4294925233, 2304563134,
   1804603682, 4254626195, 2792965006, 1236535329, 4129170786, 3225465664,
   643717713, 3921069994, 3593408605, 38016083, 3634488961, 3889429448,
   568446438, 3275163606, 4107603335, 1163531501, 2850285829, 4243563512,
   1735328473, 2368359562, 4294588738, 2272392833, 1839030562, 4259657740,
   2763975236, 1272893353, 4139469664, 3200236656, 681279174, 3936430074,
   3572445317, 76029189, 3654602809, 3873151461, 530742520, 3299628645,
   4096336452, 1126891415, 2878612391, 4237533241, 1700485571, 2399980690,
   4293915773, 2240044497, 1873313359, 4264355552, 2734768916, 1309151649,
   4149444226, 3174756917, 718787259, 3951481745]

/-- The 64 MD5 per-round left-rotation amounts. -/
def md5S : List Nat :=
  [7, 12, 17, 22, 7, 12, 17, 22, 7, 12, 17, 22, 7, 12, 17, 22,
   5, 9, 14, 20, 5, 9, 14, 20, 5, 9, 14, 20, 5, 9, 14, 20,
   4, 11, 16, 23, 4, 11, 16, 23, 4, 11, 16, 23, 4, 11, 16, 23,
   6, 10, 15, 21, 6, 10, 15, 21, 6, 10, 15, 21, 6, 10, 15, 21]

/-- Little-endian 32-bit words from a 64-byte block. -/
def md5Words : List Nat → List Nat
  | b0 :: b1 :: b2 :: b3 :: rest => (b0 + 256 * b1 + 65536 * b2 + 16777216 * b3) :: md5Words rest
  | _ => []

/-- One MD5 round: state `(a, b, c, d)`, message words `m`, round index `i`. -/
def md5Round (m : List Nat) (st : Nat × Nat × Nat × Nat) (i : Nat) : Nat × Nat × Nat × Nat :=
  let (a, b, c, d) := st
  let (f, g) :=
    if i < 16 then ((b &&& c) ||| ((b ^^^ w32mask) &&& d), i)
    else if i < 32 then ((d &&& b) ||| ((d ^^^ w32mask) &&& c), (5 * i + 1) % 16)
    else if i < 48 then (b ^^^ c ^^^ d, (3 * i + 5) % 16)
    else (c ^^^ (b ||| (d ^^^ w32mask)), (7 * i) % 16)
  let f := w32 (f + a + md5K.getD i 0 + m.getD g 0)
  (d, w32 (b + rotl32 f (md5S.getD i 0)), b, c)

/-- Process one 64-byte block into the running state. -/
def md5Block (st : Nat × Nat × Nat × Nat) (block : List Nat) : Nat × Nat × Nat × Nat :=
  let m := md5Words block
  let (a, b, c, d) := (List.range 64).foldl (md5Round m) st
  let (a0, b0, c0, d0) := st
  (w32 (a0 + a), w32 (b0 + b), w32 (c0 + c), w32 (d0 + d))

/-- Split a list into 64-element chunks, structurally on a fuel argument so
the definition reduces in the kernel; each step drops 64 elements, so fuel
equal to the list length always suffices. -/
def chunks64Aux : Nat → List Nat → List (List Nat)
  | 0, _ => []
  | _ + 1, [] => []
  | fuel + 1, l => l.take 64 :: chunks64Aux fuel (l.drop 64)

/-- Split a list into 64-element chunks (input length is a multiple of 64). -/
def chunks64 (l : List Nat) : List (List Nat) := chunks64Aux l.length l

/-- MD5 padding: append `0x80`, zero-fill to 56 mod 64, append the 64-bit
little-endian bit length. -/
def md5Pad (msg : List Nat) : List Nat :=
  let len := msg.length
  let padLen := (55 + 64 - len % 64) % 64 + 1
  let bitLen := w32 (len * 8)
  let bitLenHi := (len * 8) / 4294967296 % 4294967296
  msg ++ (128 :: List.replicate (padLen - 1) 0) ++
    [bitLen % 256, bitLen / 256 % 256, bitLen / 65536 % 256, bitLen / 16777216 % 256,
     bitLenHi % 256, bitLenHi / 256 % 256, bitLenHi / 65536 % 256, bitLenHi / 16777216 % 256]

/-- Little-endian bytes of a 32-bit word. -/
def leBytes (n : Nat) : List Nat := [n % 256, n / 256 % 256, n / 65536 % 256, n / 16777216 % 256]

/-- Lowercase hexadecimal digit. -/
def hexDigit (n : Nat) : Char := if n < 10 then Char.ofNat (48 + n) else Char.ofNat (87 + n)

/-- Lowercase hex rendering of a byte list (Go `fmt.Sprintf "%x"` of a digest). -/
def bytesToHex (bs : List Nat) : String :=
  String.mk (bs.flatMap fun b => [hexDigit (b / 16), hexDigit (b % 16)])

/-- The MD5 digest of a byte sequence, as 16 bytes. -/
def md5Sum (msg : List Nat) : List Nat :=
  let st := chunks64 (md5Pad msg) |>.foldl md5Block (1732584193, 4023233417, 2562383102, 271733878)
  let (a, b, c, d) := st
  leBytes a ++ leBytes b ++ leBytes c ++ leBytes d

/-! ## Strings as byte sequences

Go strings are byte sequences and `len` counts bytes; inputs are modelled as
Lean strings (valid Unicode) and byte counts via UTF-8 encoding. -/

/-- UTF-8 encoding of a character, as bytes. -/
def charUtf8 (c : Char) : List Nat :=
  let n := c.toNat
  if n < 128 then [n]
  else if n < 2048 then [192 + n / 64, 128 + n % 64]
  else if n < 65536 then [224 + n / 4096, 128 + n / 64 % 64, 128 + n % 64]
  else [240 + n / 262144, 128 + n / 4096 % 64, 128 + n / 64 % 64, 128 + n % 64]

/-- UTF-8 bytes of a character list. -/
def listBytes (l : List Char) : List Nat := l.flatMap charUtf8

/-- UTF-8 bytes of a string. -/
def strBytes (s : String) : List Nat := listBytes s.data

/-- Go `len` of a string rendered as a character list: its UTF-8 byte count. -/
def utf8Len (l : List Char) : Nat := (listBytes l).length

/-- Decimal digits of a natural number; the fuel argument exceeds the number
itself, which is enough since dividing by 10 reaches 0 within `n` steps. -/
def natDigitsAux : Nat → Nat → List Char
  | 0, _ => []
  | fuel + 1, n =>
    if n < 10 then [Char.ofNat (48 + n)]
    else natDigitsAux fuel (n / 10) ++ [Char.ofNat (48 + n % 10)]

/-- Go `fmt.Sprintf "%d"` of a natural number. -/
def natRepr (n : Nat) : String := String.mk (natDigitsAux (n + 1) n)

/-- Go `fmt.Sprintf "%d"` of an integer. -/
def intRepr (i : Int) : String := if i < 0 then "-" ++ natRepr i.natAbs else natRepr i.toNat

/-- Go `fmt.Sprintf "%02d"` of an integer: zero-padded to width two. -/
def pad02 (i : Int) : String :=
  if 0 ≤ i ∧ i < 10 then "0" ++ natRepr i.toNat else intRepr i

/-- Go `strings.Split` on the single-byte separator `"-"`: the list of
maximal hyphen-free segments (possibly empty ones). -/
def splitHyphen : List Char → List (List Char)
  | [] => [[]]
  | c :: rest =>
    if c = '-' then [] :: splitHyphen rest
    else
      match splitHyphen rest with
      | p :: ps => (c :: p) :: ps
      | [] => [[c]]

/-! ## The `fmt.Sscanf "%02d"` row scan

`ParsePosition` reads the row with `fmt.Sscanf(rowStr, "%02d", &row)`.
`fmt`'s scanner skips leading white space (erroring on a newline, since
`Sscanf` treats newlines as literal), accepts an optional sign, then requires
at least one ASCII decimal digit and reads digits greedily, leaving any
trailing bytes unconsumed without error.  The two-byte row strings passed in
never exceed the scan width of two, so the width limit never binds. -/

/-- `fmt`'s white-space table (`fmt/scan.go`). -/
def fmtIsSpace (c : Char) : Bool :=
  let n := c.toNat
  (9 ≤ n && n ≤ 13) || n = 32 || n = 133 || n = 160 || n = 5760 ||
  (8192 ≤ n && n ≤ 8202) || n = 8232 || n = 8233 || n = 8239 || n = 8287 || n = 12288

/-- `fmt`'s `SkipSpace` with `nlIsSpace = false`: skip white space, failing
on a newline; a carriage return directly followed by a newline is consumed
and the newline then raises the same failure. -/
def scanSpaces : List Char → Option (List Char)
  | [] => some []
  | c :: rest =>
    if c = '\n' then none
    else if c = '\r' then
      if rest.head? = some '\n' then none else scanSpaces rest
    else if fmtIsSpace c then scanSpaces rest
    else some (c :: rest)

/-- ASCII decimal digit test (`fmt` scans base-10 digits only). -/
def isDigitChar (c : Char) : Bool := 48 ≤ c.toNat && c.toNat ≤ 57

/-- Value of an ASCII digit. -/
def digitVal (c : Char) : Nat := c.toNat - 48

/-- The digit-reading tail of `fmt`'s `scanInt`: at least one ASCII digit,
then digits read greedily, trailing bytes left unconsumed; the sign read
beforehand negates the value. -/
def scanDigits (neg : Bool) : List Char → Option Int
  | [] => none
  | d :: ds =>
    if isDigitChar d then
      some ((if neg then -1 else 1) *
        ((d :: ds.takeWhile isDigitChar).foldl (fun acc d2 => 10 * acc + (digitVal d2 : Int)) 0))
    else none

/-- `fmt`'s `scanInt` after space skipping: an optional single sign, then
digits (empty input is an EOF failure). -/
def scanIntPart : List Char → Option Int
  | [] => none
  | c :: rest =>
    if c = '-' then scanDigits true rest
    else if c = '+' then scanDigits false rest
    else scanDigits false (c :: rest)

/-- `fmt.Sscanf s "%02d"` restricted to the at-most-two-character strings
the caller supplies: skip spaces (newline failing), optional sign, at least
one digit, greedy digits, trailing bytes ignored.  The scan width of two
never binds on inputs of at most two characters. -/
def scanRow2 (l : List Char) : Option Int :=
  match scanSpaces l with
  | none => none
  | some body => scanIntPart body

instance {e a : Type} [DecidableEq e] [DecidableEq a] : DecidableEq (Except e a) :=
  fun x y =>
    match x, y with
    | .error u, .error v => decidable_of_iff (u = v) (by simp)
    | .ok u, .ok v => decidable_of_iff (u = v) (by simp)
    | .error _, .ok _ => isFalse (by simp)
    | .ok _, .error _ => isFalse (by simp)

/-! ## Data model (`rules.go`) -/

/-- Go `const BoardSize = 15`. -/
def BoardSize : Nat := 15

/-- Go `type Player string`. -/
abbrev Player := String

def PlayerBlack : Player := "BLACK"
def PlayerWhite : Player := "WHITE"

/-- Go `type Position struct { Row, Col int }`. -/
structure Position where
  Row : Int
  Col : Int
deriving DecidableEq, Repr

/-- Go `type Move struct`. -/
structure Move where
  player : Player
  position : String
  moveNum : Nat
  piece : Char
deriving DecidableEq, Repr

/-- Go `[BoardSize][BoardSize]rune`. -/
abbrev Board := Fin 15 → Fin 15 → Char

/-- Go `type GameState struct`.  `Winner *Player` becomes `Option Player`;
the `omitempty` string fields start out as `""` (Go's zero value). -/
structure GameState where
  Board : Board
  Moves : List Move
  CurrentTurn : Player
  Winner : Option Player
  GameOver : Bool
  Analysis : String
  AnalysisHash : String
  CurrentBoardHash : String

instance : DecidableEq GameState := fun a b =>
  decidable_of_iff
    (a.Board = b.Board ∧ a.Moves = b.Moves ∧ a.CurrentTurn = b.CurrentTurn ∧
     a.Winner = b.Winner ∧ a.GameOver = b.GameOver ∧ a.Analysis = b.Analysis ∧
     a.AnalysisHash = b.AnalysisHash ∧ a.CurrentBoardHash = b.CurrentBoardHash)
    (by cases a; cases b; simp)

/-- Go `NewGameState`: White to move, empty board, no winner, game running. -/
def NewGameState : GameState :=
  { Board := fun _ _ => '+'
    Moves := []
    CurrentTurn := PlayerWhite
    Winner := none
    GameOver := false
    Analysis := ""
    AnalysisHash := ""
    CurrentBoardHash := "" }

/-- Read a board cell at integer coordinates; callers in the source index
only after a bounds check, so the default branch is never reached there. -/
def getCell (b : Board) (r c : Int) : Char :=
  if h : 0 ≤ r ∧ r < 15 ∧ 0 ≤ c ∧ c < 15 then
    b ⟨r.toNat, by omega⟩ ⟨c.toNat, by omega⟩
  else '+'

/-- Write a board cell at integer coordinates (the source assigns only after
`IsValidPosition`). -/
def setCell (b : Board) (r c : Int) (piece : Char) : Board :=
  fun i j => if ((i : Nat) : Int) = r ∧ ((j : Nat) : Int) = c then piece else b i j

/-! ## `rules.go` functions -/

/-- Go `ParsePosition`: `"H-08"` to `Position {Row := 7, Col := 7}`.  The Go
code checks the column's byte length is 1 and its byte lies in `'A'..'O'`;
for single-character segments this is exactly the range test below (no
character above `'O'` = 79 passes), and longer segments fail the `match`. -/
def ParsePosition (pos : String) : Except String Position :=
  match splitHyphen pos.data with
  | [colS, rowS] =>
    match colS with
    | [c] =>
      if 65 ≤ c.toNat ∧ c.toNat ≤ 79 then
        if utf8Len rowS ≠ 2 then .error ("invalid row format: " ++ String.mk rowS)
        else
          match scanRow2 rowS with
          | none => .error ("invalid row: " ++ String.mk rowS)
          | some row =>
            if row < 1 ∨ row > 15 then .error ("row out of range: " ++ intRepr row)
            else .ok ⟨row - 1, (c.toNat : Int) - 65⟩
      else .error ("invalid column: " ++ String.mk colS)
    | _ => .error ("invalid column: " ++ String.mk colS)
  | _ => .error ("invalid position format: " ++ pos)

/-- Go `FormatPosition`: `Position {Row := 7, Col := 7}` to `"H-08"`
(`fmt.Sprintf "%c-%02d"`; the column addition is exact for the non-negative
columns every parsed position carries). -/
def FormatPosition (pos : Position) : String :=
  String.mk [Char.ofNat (65 + pos.Col).toNat, '-'] ++ pad02 (pos.Row + 1)

/-- Go `(*GameState).IsValidPosition`. -/
def GameState.IsValidPosition (_gs : GameState) (pos : Position) : Bool :=
  0 ≤ pos.Row ∧ pos.Row < 15 ∧ 0 ≤ pos.Col ∧ pos.Col < 15

/-- Go `(*GameState).IsEmptyPosition`. -/
def GameState.IsEmptyPosition (gs : GameState) (pos : Position) : Bool :=
  if ¬gs.IsValidPosition pos then false
  else getCell gs.Board pos.Row pos.Col = '+'

/-- Go `GetPieceForPlayer`. -/
def GetPieceForPlayer (player : Player) : Char :=
  if player = PlayerBlack then 'X'
  else if player = PlayerWhite then 'O'
  else '+'

/-- Go `GetPlayerForPiece`. -/
def GetPlayerForPiece (piece : Char) : Player :=
  if piece = 'X' then PlayerBlack
  else if piece = 'O' then PlayerWhite
  else ""

/-- Go `NextPlayer`. -/
def NextPlayer (current : Player) : Player :=
  if current = PlayerBlack then PlayerWhite else PlayerBlack

/-- The body of Go `countInOneDirection`'s `for` loop, structurally on fuel.
The counted cells are consecutive in-bounds positions stepping by one along
a coordinate, so at most 15 iterations can run; fuel 15 is exact for the
eight direction vectors the win check uses. -/
def countAux (b : Board) (piece : Char) (dr dc : Int) : Nat → Int → Int → Nat
  | 0, _, _ => 0
  | fuel + 1, r, c =>
    if 0 ≤ r ∧ r < 15 ∧ 0 ≤ c ∧ c < 15 then
      if getCell b r c = piece then 1 + countAux b piece dr dc fuel (r + dr) (c + dc)
      else 0
    else 0

/-- Go `(*GameState).countInOneDirection`. -/
def GameState.countInOneDirection (gs : GameState) (pos : Position) (piece : Char)
    (dr dc : Int) : Nat :=
  countAux gs.Board piece dr dc 15 (pos.Row + dr) (pos.Col + dc)

/-- Go `(*GameState).countInDirection`: both ways plus the stone itself. -/
def GameState.countInDirection (gs : GameState) (pos : Position) (piece : Char)
    (dr dc : Int) : Nat :=
  1 + gs.countInOneDirection pos piece dr dc + gs.countInOneDirection pos piece (-dr) (-dc)

/-- The four scanned axes of Go `CheckWin`, in source order. -/
def directions : List (Int × Int) := [(0, 1), (1, 0), (1, 1), (1, -1)]

/-- Go `(*GameState).CheckWin`. -/
def GameState.CheckWin (gs : GameState) (pos : Position) (player : Player) : Bool :=
  let piece := GetPieceForPlayer player
  directions.any fun d => 5 ≤ gs.countInDirection pos piece d.1 d.2

/-- Go `(*GameState).IsBoardFull`. -/
def GameState.IsBoardFull (gs : GameState) : Bool :=
  (List.finRange 15).all fun i => (List.finRange 15).all fun j => gs.Board i j ≠ '+'

/-- Go `(*GameState).GenerateBoardHash`: MD5 hex of the 225 board cells read
in row-major order, and nothing else. -/
def GameState.GenerateBoardHash (gs : GameState) : String :=
  let boardData :=
    (List.finRange 15).flatMap fun i => (List.finRange 15).map fun j => gs.Board i j
  bytesToHex (md5Sum (listBytes boardData))

/-! ## `move.go` functions -/

/-- Go `ValidateAndParseMove`: `"H-08-X"` to the position text and player. -/
def ValidateAndParseMove (moveStr : String) : Except String (String × Player) :=
  match splitHyphen moveStr.data with
  | [p0, p1, p2] =>
    match p2 with
    | [c] =>
      if utf8Len [c] = 1 then
        if c = 'X' then
          match ParsePosition (String.mk (p0 ++ '-' :: p1)) with
          | .error e => .error ("invalid position: " ++ e)
          | .ok _ => .ok (String.mk (p0 ++ '-' :: p1), PlayerBlack)
        else if c = 'O' then
          match ParsePosition (String.mk (p0 ++ '-' :: p1)) with
          | .error e => .error ("invalid position: " ++ e)
          | .ok _ => .ok (String.mk (p0 ++ '-' :: p1), PlayerWhite)
        else .error ("invalid piece: " ++ String.mk [c] ++ " (must be X or O)")
      else .error ("invalid piece: " ++ String.mk p2)
    | _ => .error ("invalid piece: " ++ String.mk p2)
  | _ => .error ("invalid move format: expected COL-ROW-PIECE, got " ++ moveStr)

/-- The two mutation lines of Go `(*GameState).MakeMove` (`gs.Board[...] =
piece` and the `append` of the move record with number `len(gs.Moves) + 1`),
as one state transformer. -/
def placeStone (gs : GameState) (position : String) (player : Player)
    (pos : Position) : GameState :=
  { gs with
    Board := setCell gs.Board pos.Row pos.Col (GetPieceForPlayer player)
    Moves := gs.Moves ++ [⟨player, position, gs.Moves.length + 1, GetPieceForPlayer player⟩] }

/-- The accepted-move tail of Go `(*GameState).MakeMove` (everything after
the validation cascade): place the stone, append the move record, then run
the win check, the draw check, the turn flip, and the hash/cache update, in
source order.  Factored out of `MakeMove` so the three outcome branches can
be reasoned about by name. -/
def applyAccepted (gs : GameState) (position : String) (player : Player)
    (pos : Position) : GameState :=
  let gs1 : GameState := placeStone gs position player pos
  if gs1.CheckWin pos player then
    { gs1 with GameOver := true, Winner := some player }
  else if gs1.IsBoardFull then
    { gs1 with GameOver := true, Winner := none }
  else
    let gs2 : GameState := { gs1 with CurrentTurn := NextPlayer gs.CurrentTurn }
    { gs2 with
      CurrentBoardHash := gs2.GenerateBoardHash
      Analysis := ""
      AnalysisHash := "" }

/-- Go `(*GameState).MakeMove`, functionally: the returned pair is the error
result together with the receiver's state after the call. -/
def GameState.MakeMove (gs : GameState) (moveStr : String) : Option String × GameState :=
  if gs.GameOver then
    match gs.Winner with
    | some w => (some ("game is over, " ++ w ++ " has won"), gs)
    | none => (some "game is over (draw)", gs)
  else
    match ValidateAndParseMove moveStr with
    | .error e => (some e, gs)
    | .ok (position, player) =>
      if player ≠ gs.CurrentTurn then
        (some ("it\u0027s " ++ gs.CurrentTurn ++ "'s turn, not " ++ player ++ "\u0027s turn"), gs)
      else
        match ParsePosition position with
        | .error e => (some e, gs)
        | .ok pos =>
          if ¬gs.IsValidPosition pos then
            (some ("position " ++ position ++ " is out of bounds"), gs)
          else if ¬gs.IsEmptyPosition pos then
            (some ("position " ++ position ++ " is already occupied"), gs)
          else
            (none, applyAccepted gs position player pos)

/-! ## Structural lemmas about `MakeMove` -/

/-- Claim C2: for every game state and every move text, if `MakeMove` returns
an error (game over, malformed text, wrong turn, out of bounds, or occupied
square) then the entire game state — board, move list, current turn, terminal
flag, winner, cached hash and cached analysis — is identical to its value
before the call: every rejection branch of the source returns before the
first mutation. -/
theorem makeMove_rejection_unchanged (gs : GameState) (s : String) (e : String)
    (gs' : GameState) (h : gs.MakeMove s = (some e, gs')) : gs' = gs := by
  unfold GameState.MakeMove at h
  split at h
  · split at h <;> exact (Prod.mk.injEq .. ▸ h).2.symm
  · split at h
    · exact (Prod.mk.injEq .. ▸ h).2.symm
    · split at h
      · exact (Prod.mk.injEq .. ▸ h).2.symm
      · split at h
        · exact (Prod.mk.injEq .. ▸ h).2.symm
        · split at h
          · exact (Prod.mk.injEq .. ▸ h).2.symm
          · split at h
            · exact (Prod.mk.injEq .. ▸ h).2.symm
            · simp at h

/-- Any accepted `MakeMove` arose from the full validation cascade
succeeding, and produced exactly the `applyAccepted` state. -/
theorem makeMove_ok_shape (gs : GameState) (s : String) (gs' : GameState)
    (h : gs.MakeMove s = (none, gs')) :
    gs.GameOver = false ∧
    ∃ position player pos,
      ValidateAndParseMove s = .ok (position, player) ∧
      player = gs.CurrentTurn ∧
      ParsePosition position = .ok pos ∧
      gs.IsValidPosition pos = true ∧
      gs.IsEmptyPosition pos = true ∧
      gs' = applyAccepted gs position player pos := by
  unfold GameState.MakeMove at h
  split at h
  case isTrue hover => split at h <;> simp at h
  case isFalse hover =>
    split at h
    case h_1 => simp at h
    case h_2 position player hval =>
      rename_i pr
      split at h
      case isTrue => simp at h
      case isFalse hturn =>
        split at h
        case h_1 => simp at h
        case h_2 pos hpos =>
          split at h
          case isTrue => simp at h
          case isFalse hvalid =>
            split at h
            case isTrue => simp at h
            case isFalse hempty =>
              refine ⟨by simpa using hover, position, player, pos, ?_, ?_, hpos, ?_, ?_, ?_⟩
              · exact hval ▸ rfl
              · exact not_not.mp hturn
              · simpa using hvalid
              · simpa using hempty
              · exact ((Prod.mk.injEq ..).mp h).2.symm

/-- `CheckWin` reads only the board. -/
theorem CheckWin_congr {gs gs' : GameState} (h : gs.Board = gs'.Board)
    (pos : Position) (player : Player) :
    gs.CheckWin pos player = gs'.CheckWin pos player := by
  unfold GameState.CheckWin GameState.countInDirection GameState.countInOneDirection
  rw [h]

/-- `IsBoardFull` reads only the board. -/
theorem IsBoardFull_congr {gs gs' : GameState} (h : gs.Board = gs'.Board) :
    gs.IsBoardFull = gs'.IsBoardFull := by
  unfold GameState.IsBoardFull
  rw [h]

/-- `GenerateBoardHash` reads only the board. -/
theorem GenerateBoardHash_congr {gs gs' : GameState} (h : gs.Board = gs'.Board) :
    gs.GenerateBoardHash = gs'.GenerateBoardHash := by
  unfold GameState.GenerateBoardHash
  rw [h]

/-- The fields of the three `applyAccepted` outcome branches, discriminated
by the win and draw tests on the placed state. -/
theorem applyAccepted_cases (gs : GameState) (position : String) (player : Player)
    (pos : Position) :
    (let gs1 := placeStone gs position player pos
     if gs1.CheckWin pos player then
       applyAccepted gs position player pos =
         { gs1 with GameOver := true, Winner := some player }
     else if gs1.IsBoardFull then
       applyAccepted gs position player pos = { gs1 with GameOver := true, Winner := none }
     else
       applyAccepted gs position player pos =
         { gs1 with
           CurrentTurn := NextPlayer gs.CurrentTurn
           CurrentBoardHash :=
             GameState.GenerateBoardHash { gs1 with CurrentTurn := NextPlayer gs.CurrentTurn }
           Analysis := ""
           AnalysisHash := "" }) := by
  simp only [applyAccepted]
  split
  · rfl
  · split
    · rfl
    · rfl

/-! ## Claim C2: rejected moves leave the state untouched -/

/-- Witness for C2: a wrong-turn rejection on the fresh state returns the
fresh state unchanged. -/
theorem makeMove_rejection_unchanged_witness :
    NewGameState.MakeMove "A-01-X" =
      (some "it\u0027s WHITE\u0027s turn, not BLACK\u0027s turn", NewGameState) ∧
    (NewGameState.MakeMove "A-01-X").2 = NewGameState :=
  ⟨by decide,
   makeMove_rejection_unchanged NewGameState "A-01-X"
     "it\u0027s WHITE\u0027s turn, not BLACK\u0027s turn"
     ((NewGameState.MakeMove "A-01-X").2) (by decide)⟩

/-! ## Claim C5: the cache-gating hash depends on the board cells alone -/

/-- Claim C5: the board-content hash used for cache validity
(`GenerateBoardHash`, stored into `CurrentBoardHash` and compared against
`AnalysisHash`) is a deterministic digest of the board cells alone, read in
row-major order: states with cell-for-cell equal boards hash equally, whatever
their move histories or current-turn markers. -/
theorem generateBoardHash_board_only (gs1 gs2 : GameState)
    (h : ∀ i j : Fin 15, gs1.Board i j = gs2.Board i j) :
    gs1.GenerateBoardHash = gs2.GenerateBoardHash := by
  have hb : gs1.Board = gs2.Board := funext fun i => funext fun j => h i j
  unfold GameState.GenerateBoardHash
  rw [hb]

/-- Two states with the same single-stone board but different histories and
turn markers. -/
def hashStateA : GameState :=
  { NewGameState with
    Board := setCell NewGameState.Board 0 0 'O'
    Moves := [⟨PlayerWhite, "A-01", 1, 'O'⟩]
    CurrentTurn := PlayerBlack }

def hashStateB : GameState :=
  { NewGameState with Board := setCell NewGameState.Board 0 0 'O' }

/-- Witness for C5: equal boards, different history and turn, equal hash. -/
theorem generateBoardHash_board_only_witness :
    (∀ i j : Fin 15, hashStateA.Board i j = hashStateB.Board i j) ∧
    hashStateA.GenerateBoardHash = hashStateB.GenerateBoardHash :=
  ⟨by decide, generateBoardHash_board_only _ _ (by decide)⟩

/-! ## Claim C6: initial state and turn alternation -/

/-- Claim C6: a fresh state has White to move on an all-empty board and is
not terminal; each accepted move flips the turn to the other colour, except
that a game-ending move leaves the current-turn marker unchanged. -/
theorem fresh_state_and_turn_alternation :
    (NewGameState.CurrentTurn = PlayerWhite ∧
     (∀ i j : Fin 15, NewGameState.Board i j = '+') ∧
     NewGameState.GameOver = false) ∧
    (∀ (gs : GameState) (s : String) (gs' : GameState), gs.MakeMove s = (none, gs') →
      (gs'.GameOver = false →
        (gs.CurrentTurn = PlayerWhite → gs'.CurrentTurn = PlayerBlack) ∧
        (gs.CurrentTurn = PlayerBlack → gs'.CurrentTurn = PlayerWhite)) ∧
      (gs'.GameOver = true → gs'.CurrentTurn = gs.CurrentTurn)) := by
  refine ⟨⟨rfl, fun i j => rfl, rfl⟩, ?_⟩
  intro gs s gs' h
  obtain ⟨hover, position, player, pos, hval, hturn, hpos, hv, he, hgs'⟩ :=
    makeMove_ok_shape gs s gs' h
  subst hgs'
  have hc := applyAccepted_cases gs position player pos
  simp only at hc
  split at hc
  · rw [hc]
    exact ⟨fun hfalse => by simp [placeStone] at hfalse, fun _ => by simp [placeStone]⟩
  · split at hc
    · rw [hc]
      exact ⟨fun hfalse => by simp [placeStone] at hfalse, fun _ => by simp [placeStone]⟩
    · rw [hc]
      constructor
      · intro _
        constructor
        · intro hw
          show NextPlayer gs.CurrentTurn = PlayerBlack
          rw [hw]; decide
        · intro hb
          show NextPlayer gs.CurrentTurn = PlayerWhite
          rw [hb]; decide
      · intro htrue
        have : gs.GameOver = true := by simpa [placeStone] using htrue
        rw [hover] at this
        exact absurd this (by decide)

/-- Witness for C6: the first accepted move of a game flips the turn from
White to Black. -/
theorem fresh_state_and_turn_alternation_witness :
    NewGameState.MakeMove "A-01-O" = (none, (NewGameState.MakeMove "A-01-O").2) ∧
    (NewGameState.MakeMove "A-01-O").2.GameOver = false ∧
    (NewGameState.MakeMove "A-01-O").2.CurrentTurn = PlayerBlack := by
  have h1 : (NewGameState.MakeMove "A-01-O").1 = none := by rfl
  have h : NewGameState.MakeMove "A-01-O" = (none, (NewGameState.MakeMove "A-01-O").2) := by
    rw [← h1]
  have h2 := (fresh_state_and_turn_alternation.2 _ _ _ h).1
  exact ⟨h, rfl, (h2 rfl).1 rfl⟩

/-- `applyAccepted` never changes the board after the stone is placed. -/
theorem applyAccepted_Board (gs : GameState) (position : String) (player : Player)
    (pos : Position) :
    (applyAccepted gs position player pos).Board = (placeStone gs position player pos).Board := by
  simp only [applyAccepted]
  split
  · rfl
  · split <;> rfl

/-- `applyAccepted` never changes the move list after the append. -/
theorem applyAccepted_Moves (gs : GameState) (position : String) (player : Player)
    (pos : Position) :
    (applyAccepted gs position player pos).Moves = (placeStone gs position player pos).Moves := by
  simp only [applyAccepted]
  split
  · rfl
  · split <;> rfl

/-- The terminal flag after an accepted move: set exactly by the win test or
the draw test on the placed board (or already set beforehand). -/
theorem applyAccepted_GameOver (gs : GameState) (position : String) (player : Player)
    (pos : Position) :
    (applyAccepted gs position player pos).GameOver =
      ((placeStone gs position player pos).CheckWin pos player ||
       (placeStone gs position player pos).IsBoardFull || gs.GameOver) := by
  simp only [applyAccepted]
  split
  case isTrue hw => rw [hw]; rfl
  case isFalse hw =>
    simp only [Bool.not_eq_true] at hw
    rw [hw]
    split
    case isTrue hf => rw [hf]; rfl
    case isFalse hf =>
      simp only [Bool.not_eq_true] at hf
      rw [hf]
      rfl

/-- A winning accepted move records the mover as winner. -/
theorem applyAccepted_Winner_win (gs : GameState) (position : String) (player : Player)
    (pos : Position) (hw : (placeStone gs position player pos).CheckWin pos player = true) :
    (applyAccepted gs position player pos).Winner = some player := by
  simp only [applyAccepted]
  simp [hw]

/-- A drawing accepted move (no win, full board) records no winner. -/
theorem applyAccepted_Winner_draw (gs : GameState) (position : String) (player : Player)
    (pos : Position) (hw : (placeStone gs position player pos).CheckWin pos player = false)
    (hf : (placeStone gs position player pos).IsBoardFull = true) :
    (applyAccepted gs position player pos).Winner = none := by
  simp only [applyAccepted]
  simp [hw, hf]

/-! ## Claim C10: the win check runs before the draw check -/

/-- Claim C10: after an accepted move the terminal flag is exactly the
disjunction of the win test and the full-board test at the played position
(evaluated on the post-move board), a completed win always records the mover
as winner — even on a board-filling move — and a draw (no winner) is recorded
only when the win test fails and the board is full. -/
theorem win_checked_before_draw :
    ∀ (gs : GameState) (s : String) (gs' : GameState), gs.MakeMove s = (none, gs') →
      ∃ position player pos,
        ValidateAndParseMove s = .ok (position, player) ∧
        ParsePosition position = .ok pos ∧
        gs'.GameOver = (gs'.CheckWin pos player || gs'.IsBoardFull) ∧
        (gs'.CheckWin pos player = true → gs'.Winner = some player) ∧
        (gs'.CheckWin pos player = false → gs'.IsBoardFull = true → gs'.Winner = none) := by
  intro gs s gs' h
  obtain ⟨hover, position, player, pos, hval, hturn, hpos, hv, he, hgs'⟩ :=
    makeMove_ok_shape gs s gs' h
  refine ⟨position, player, pos, hval, hpos, ?_⟩
  have hB := applyAccepted_Board gs position player pos
  have hcw := CheckWin_congr hB pos player
  have hbf := IsBoardFull_congr hB
  subst hgs'
  refine ⟨?_, ?_, ?_⟩
  · rw [hcw, hbf, applyAccepted_GameOver, hover]
    simp
  · intro hct
    rw [hcw] at hct
    exact applyAccepted_Winner_win gs position player pos hct
  · intro hcf hft
    rw [hcw] at hcf
    rw [hbf] at hft
    exact applyAccepted_Winner_draw gs position player pos hcf hft

/-- A state one White move away from five in a row, with stale cached
analysis: White stones on A01 to D01, Black stones elsewhere. -/
def winBoard : Board := fun i j =>
  if (i : Nat) = 0 ∧ (j : Nat) < 4 then 'O'
  else if (i : Nat) = 5 ∧ 5 ≤ (j : Nat) ∧ (j : Nat) < 9 then 'X'
  else '+'

def staleState : GameState :=
  { Board := winBoard
    Moves := []
    CurrentTurn := PlayerWhite
    Winner := none
    GameOver := false
    Analysis := "stale"
    AnalysisHash := "h"
    CurrentBoardHash := "h" }

/-- Witness for C10: the winning move `E-01-O` out of `staleState` is
accepted and makes White the winner. -/
theorem win_checked_before_draw_witness :
    staleState.MakeMove "E-01-O" = (none, (staleState.MakeMove "E-01-O").2) ∧
    (staleState.MakeMove "E-01-O").2.GameOver = true ∧
    (staleState.MakeMove "E-01-O").2.Winner = some PlayerWhite := by
  have h1 : (staleState.MakeMove "E-01-O").1 = none := by rfl
  have h : staleState.MakeMove "E-01-O" = (none, (staleState.MakeMove "E-01-O").2) := by
    rw [← h1]
  obtain ⟨position, player, pos, hval, hpos, hgo, hwin, hdraw⟩ :=
    win_checked_before_draw _ _ _ h
  exact ⟨h, by rfl, by rfl⟩

/-! ## Claim C1 (corrected): hash update and cache clearing happen only on
the continue-play branch -/

set_option maxRecDepth 100000 in
/-- Counterexample to C1 as stated: the winning move `E-01-O` out of
`staleState` is accepted, yet the cached analysis text and its tag hash are
not cleared, and the stored board-content hash differs from the hash
recomputed from the post-move board (the win branch returns before the
update). -/
theorem hash_update_counterexample :
    (staleState.MakeMove "E-01-O").1 = none ∧
    (staleState.MakeMove "E-01-O").2.GameOver = true ∧
    (staleState.MakeMove "E-01-O").2.Analysis = "stale" ∧
    (staleState.MakeMove "E-01-O").2.AnalysisHash = "h" ∧
    (staleState.MakeMove "E-01-O").2.CurrentBoardHash ≠
      (staleState.MakeMove "E-01-O").2.GenerateBoardHash := by
  exact ⟨rfl, rfl, rfl, rfl, by decide⟩

/-- Claim C1 as amended: when `MakeMove` accepts a move and play continues
(no win, no draw), the stored board-content hash equals the hash recomputed
from the post-move board and the cached analysis and its tag are cleared;
when the accepted move wins or draws the game, those three fields keep their
pre-move values. -/
theorem hash_update_on_continue :
    ∀ (gs : GameState) (s : String) (gs' : GameState), gs.MakeMove s = (none, gs') →
      (gs'.GameOver = false →
        gs'.CurrentBoardHash = gs'.GenerateBoardHash ∧
        gs'.Analysis = "" ∧ gs'.AnalysisHash = "") ∧
      (gs'.GameOver = true →
        gs'.CurrentBoardHash = gs.CurrentBoardHash ∧
        gs'.Analysis = gs.Analysis ∧ gs'.AnalysisHash = gs.AnalysisHash) := by
  intro gs s gs' h
  obtain ⟨hover, position, player, pos, hval, hturn, hpos, hv, he, hgs'⟩ :=
    makeMove_ok_shape gs s gs' h
  subst hgs'
  have hc := applyAccepted_cases gs position player pos
  simp only at hc
  split at hc
  · rw [hc]
    exact ⟨fun hfalse => by simp [placeStone] at hfalse,
           fun _ => ⟨by simp [placeStone], by simp [placeStone], by simp [placeStone]⟩⟩
  · split at hc
    · rw [hc]
      exact ⟨fun hfalse => by simp [placeStone] at hfalse,
             fun _ => ⟨by simp [placeStone], by simp [placeStone], by simp [placeStone]⟩⟩
    · rw [hc]
      constructor
      · intro _
        exact ⟨GenerateBoardHash_congr rfl, rfl, rfl⟩
      · intro htrue
        have : gs.GameOver = true := by simpa [placeStone] using htrue
        rw [hover] at this
        exact absurd this (by decide)

/-- Witness for the amended C1: the first accepted move of a game continues
play, stores the recomputed hash and clears the (already empty) cache. -/
theorem hash_update_on_continue_witness :
    NewGameState.MakeMove "A-01-O" = (none, (NewGameState.MakeMove "A-01-O").2) ∧
    (NewGameState.MakeMove "A-01-O").2.CurrentBoardHash =
      (NewGameState.MakeMove "A-01-O").2.GenerateBoardHash ∧
    (NewGameState.MakeMove "A-01-O").2.Analysis = "" ∧
    (NewGameState.MakeMove "A-01-O").2.AnalysisHash = "" := by
  have h1 : (NewGameState.MakeMove "A-01-O").1 = none := by rfl
  have h : NewGameState.MakeMove "A-01-O" = (none, (NewGameState.MakeMove "A-01-O").2) := by
    rw [← h1]
  have h2 := (hash_update_on_continue _ _ _ h).1 rfl
  exact ⟨h, h2.1, h2.2.1, h2.2.2⟩

/-- A parsed position is always in bounds: the codec's own range checks
(`'A'..'O'` column byte, row `01..15`) exclude out-of-bounds coordinates, so
`MakeMove`'s bounds rejection is purely defensive. -/
theorem parsePosition_ok_bounds (p : String) (pos : Position)
    (h : ParsePosition p = .ok pos) :
    0 ≤ pos.Row ∧ pos.Row < 15 ∧ 0 ≤ pos.Col ∧ pos.Col < 15 := by
  unfold ParsePosition at h
  split at h
  case h_2 => exact absurd h (by simp)
  case h_1 colS rowS =>
    split at h
    case h_2 => exact absurd h (by simp)
    case h_1 c =>
      split at h
      case isFalse => exact absurd h (by simp)
      case isTrue hc =>
        split at h
        case isTrue => exact absurd h (by simp)
        case isFalse hlen =>
          split at h
          case h_1 => exact absurd h (by simp)
          case h_2 row =>
            split at h
            case isTrue => exact absurd h (by simp)
            case isFalse hrange =>
              injection h with h'
              rw [← h']
              push_neg at hrange
              simp only []
              omega

/-! ## Claim C9: rejection reasons are checked in a fixed order -/

/-- Claim C9: `MakeMove` checks rejections in a fixed order with the first
match winning.  (1) On a terminal state every move text — even a malformed
one — yields the game-over error, whose message distinguishes a won game
from a draw.  (2) Otherwise a malformed text yields the codec's error, even
when the piece also contradicts the turn.  (3) Otherwise a wrong-turn move is
rejected as such, even when the target square is also occupied.  (4) The
parsed position is always in bounds (the codec excludes out-of-bounds
coordinates, so the out-of-bounds rejection that precedes the occupancy check
can never fire after a successful parse).  (5) Otherwise an occupied target
square is rejected as such, and (6) otherwise the move is accepted. -/
theorem rejection_order :
    (∀ (gs : GameState) (s : String), gs.GameOver = true →
      (gs.MakeMove s).1 = some (match gs.Winner with
        | some w => "game is over, " ++ w ++ " has won"
        | none => "game is over (draw)")) ∧
    (∀ (gs : GameState) (s e : String), gs.GameOver = false →
      ValidateAndParseMove s = .error e → (gs.MakeMove s).1 = some e) ∧
    (∀ (gs : GameState) (s position : String) (player : Player), gs.GameOver = false →
      ValidateAndParseMove s = .ok (position, player) → player ≠ gs.CurrentTurn →
      (gs.MakeMove s).1 =
        some ("it\u0027s " ++ gs.CurrentTurn ++ "\u0027s turn, not " ++ player ++ "\u0027s turn")) ∧
    (∀ (p : String) (pos : Position), ParsePosition p = .ok pos →
      ∀ gs : GameState, gs.IsValidPosition pos = true) ∧
    (∀ (gs : GameState) (s position : String) (player : Player) (pos : Position),
      gs.GameOver = false → ValidateAndParseMove s = .ok (position, player) →
      player = gs.CurrentTurn → ParsePosition position = .ok pos →
      gs.IsEmptyPosition pos = false →
      (gs.MakeMove s).1 = some ("position " ++ position ++ " is already occupied")) ∧
    (∀ (gs : GameState) (s position : String) (player : Player) (pos : Position),
      gs.GameOver = false → ValidateAndParseMove s = .ok (position, player) →
      player = gs.CurrentTurn → ParsePosition position = .ok pos →
      gs.IsEmptyPosition pos = true →
      (gs.MakeMove s).1 = none) := by
  refine ⟨?_, ?_, ?_, ?_, ?_, ?_⟩
  · intro gs s hover
    unfold GameState.MakeMove
    rw [hover]
    simp only [if_true]
    cases gs.Winner <;> rfl
  · intro gs s e hover hval
    unfold GameState.MakeMove
    rw [hover, hval]
    simp
  · intro gs s position player hover hval hturn
    unfold GameState.MakeMove
    rw [hover, hval]
    simp [hturn]
  · intro p pos h gs
    have hb := parsePosition_ok_bounds p pos h
    unfold GameState.IsValidPosition
    simp only [decide_eq_true_eq]
    exact ⟨hb.1, hb.2.1, hb.2.2.1, hb.2.2.2⟩
  · intro gs s position player pos hover hval hturn hpos hocc
    have hv : gs.IsValidPosition pos = true := by
      have hb := parsePosition_ok_bounds position pos hpos
      unfold GameState.IsValidPosition
      simp only [decide_eq_true_eq]
      exact ⟨hb.1, hb.2.1, hb.2.2.1, hb.2.2.2⟩
    unfold GameState.MakeMove
    rw [hover, hval]
    simp [hturn, hpos, hv, hocc]
  · intro gs s position player pos hover hval hturn hpos hempty
    have hv : gs.IsValidPosition pos = true := by
      have hb := parsePosition_ok_bounds position pos hpos
      unfold GameState.IsValidPosition
      simp only [decide_eq_true_eq]
      exact ⟨hb.1, hb.2.1, hb.2.2.1, hb.2.2.2⟩
    unfold GameState.MakeMove
    rw [hover, hval]
    simp [hturn, hpos, hv, hempty]

/-- A game already won by White, a drawn game, and a board with A-01 taken. -/
def gsWonW : GameState := { NewGameState with GameOver := true, Winner := some PlayerWhite }

def gsDrawn : GameState := { NewGameState with GameOver := true, Winner := none }

def occState : GameState := { NewGameState with Board := setCell NewGameState.Board 0 0 'O' }

/-- Witness for C9: each reachable rejection class fires on a concrete input,
including the game-over error on malformed text and the two distinct
game-over messages. -/
theorem rejection_order_witness :
    (gsWonW.MakeMove "not-a-move").1 = some "game is over, WHITE has won" ∧
    (gsDrawn.MakeMove "not-a-move").1 = some "game is over (draw)" ∧
    (NewGameState.MakeMove "xyz").1 =
      some "invalid move format: expected COL-ROW-PIECE, got xyz" ∧
    (NewGameState.MakeMove "A-01-X").1 =
      some "it\u0027s WHITE\u0027s turn, not BLACK\u0027s turn" ∧
    NewGameState.IsValidPosition ⟨0, 0⟩ = true ∧
    (occState.MakeMove "A-01-O").1 = some "position A-01 is already occupied" ∧
    (NewGameState.MakeMove "A-01-O").1 = none := by
  refine ⟨rejection_order.1 gsWonW _ (by decide), rejection_order.1 gsDrawn _ (by decide),
          rejection_order.2.1 NewGameState _ _ (by decide) (by decide),
          rejection_order.2.2.1 NewGameState _ "A-01" PlayerBlack (by decide) (by decide)
            (by decide),
          rejection_order.2.2.2.1 "A-01" ⟨0, 0⟩ (by decide) NewGameState,
          rejection_order.2.2.2.2.1 occState _ "A-01" PlayerWhite ⟨0, 0⟩ (by decide) (by decide)
            (by decide) (by decide) (by decide),
          rejection_order.2.2.2.2.2 NewGameState _ "A-01" PlayerWhite ⟨0, 0⟩ (by decide)
            (by decide) (by decide) (by decide) (by decide)⟩

/-! ## Claim C8: the move list length equals the number of stones -/

/-- The number of non-empty cells of a board. -/
def countNonEmpty (b : Board) : Nat :=
  (Finset.univ.filter fun p : Fin 15 × Fin 15 => b p.1 p.2 ≠ '+').card

/-- The states reachable from a fresh game by accepted moves. -/
inductive Reachable : GameState → Prop where
  | base : Reachable NewGameState
  | step (gs : GameState) (s : String) (gs' : GameState) :
      Reachable gs → gs.MakeMove s = (none, gs') → Reachable gs'

/-- Setting an empty in-bounds cell to a non-empty marker raises the stone
count by exactly one. -/
theorem countNonEmpty_setCell (b : Board) (r c : Int) (piece : Char)
    (hr : 0 ≤ r) (hr15 : r < 15) (hc : 0 ≤ c) (hc15 : c < 15)
    (hempty : getCell b r c = '+') (hpiece : piece ≠ '+') :
    countNonEmpty (setCell b r c piece) = countNonEmpty b + 1 := by
  have hi : r.toNat < 15 := by omega
  have hj : c.toNat < 15 := by omega
  have hb0 : b ⟨r.toNat, hi⟩ ⟨c.toNat, hj⟩ = '+' := by
    unfold getCell at hempty
    rw [dif_pos ⟨hr, hr15, hc, hc15⟩] at hempty
    exact hempty
  have hset : ∀ i j : Fin 15,
      setCell b r c piece i j =
        if i = ⟨r.toNat, hi⟩ ∧ j = ⟨c.toNat, hj⟩ then piece else b i j := by
    intro i j
    unfold setCell
    by_cases h : i = (⟨r.toNat, hi⟩ : Fin 15) ∧ j = (⟨c.toNat, hj⟩ : Fin 15)
    · rw [if_pos h, if_pos]
      obtain ⟨h1, h2⟩ := h
      subst h1; subst h2
      refine ⟨?_, ?_⟩
      · show (r.toNat : Int) = r
        omega
      · show (c.toNat : Int) = c
        omega
    · rw [if_neg h, if_neg]
      intro hcon
      apply h
      have h1 := hcon.1
      have h2 := hcon.2
      constructor
      · apply Fin.ext
        show (i : Nat) = r.toNat
        omega
      · apply Fin.ext
        show (j : Nat) = c.toNat
        omega
  have hfilter :
      (Finset.univ.filter fun p : Fin 15 × Fin 15 => setCell b r c piece p.1 p.2 ≠ '+') =
        insert ((⟨r.toNat, hi⟩ : Fin 15), (⟨c.toNat, hj⟩ : Fin 15))
          (Finset.univ.filter fun p : Fin 15 × Fin 15 => b p.1 p.2 ≠ '+') := by
    ext ⟨i, j⟩
    simp only [Finset.mem_filter, Finset.mem_univ, true_and, Finset.mem_insert, hset,
      Prod.mk.injEq]
    by_cases h : i = (⟨r.toNat, hi⟩ : Fin 15) ∧ j = (⟨c.toNat, hj⟩ : Fin 15)
    · simp [h, hpiece]
    · simp [h]
  unfold countNonEmpty
  rw [hfilter, Finset.card_insert_of_not_mem (by simp [hb0])]

/-- A move accepted out of a syntactically valid text always carries one of
the two real players. -/
theorem validateAndParseMove_ok_player (s position : String) (player : Player)
    (h : ValidateAndParseMove s = .ok (position, player)) :
    player = PlayerBlack ∨ player = PlayerWhite := by
  unfold ValidateAndParseMove at h
  split at h
  case h_2 => exact absurd h (by simp)
  case h_1 p0 p1 p2 =>
    split at h
    case h_2 => exact absurd h (by simp)
    case h_1 c =>
      split at h
      case isFalse => exact absurd h (by simp)
      case isTrue =>
        split at h
        case isTrue =>
          split at h
          case h_1 => exact absurd h (by simp)
          case h_2 =>
            injection h with h'
            exact Or.inl (congrArg Prod.snd h').symm
        case isFalse =>
          split at h
          case isTrue =>
            split at h
            case h_1 => exact absurd h (by simp)
            case h_2 =>
              injection h with h'
              exact Or.inr (congrArg Prod.snd h').symm
          case isFalse => exact absurd h (by simp)

/-- The bounds carried by a successful `IsValidPosition` test. -/
theorem isValidPosition_bounds (gs : GameState) (pos : Position)
    (h : gs.IsValidPosition pos = true) :
    0 ≤ pos.Row ∧ pos.Row < 15 ∧ 0 ≤ pos.Col ∧ pos.Col < 15 := by
  unfold GameState.IsValidPosition at h
  simpa using h

/-- The emptiness fact carried by a successful `IsEmptyPosition` test. -/
theorem isEmptyPosition_empty (gs : GameState) (pos : Position)
    (hv : gs.IsValidPosition pos = true) (h : gs.IsEmptyPosition pos = true) :
    getCell gs.Board pos.Row pos.Col = '+' := by
  unfold GameState.IsEmptyPosition at h
  rw [if_neg (by simp [hv])] at h
  simpa using h

/-- An accepted move appends one record and adds one stone. -/
theorem makeMove_ok_counts (gs : GameState) (s : String) (gs' : GameState)
    (h : gs.MakeMove s = (none, gs')) :
    gs'.Moves.length = gs.Moves.length + 1 ∧
    countNonEmpty gs'.Board = countNonEmpty gs.Board + 1 := by
  obtain ⟨hover, position, player, pos, hval, hturn, hpos, hv, he, hgs'⟩ :=
    makeMove_ok_shape gs s gs' h
  subst hgs'
  have hb := isValidPosition_bounds gs pos hv
  have hpiece : GetPieceForPlayer player ≠ '+' := by
    rcases validateAndParseMove_ok_player s position player hval with h1 | h1 <;>
      rw [h1] <;> decide
  constructor
  · rw [applyAccepted_Moves]
    simp [placeStone]
  · rw [applyAccepted_Board]
    show countNonEmpty
        (setCell gs.Board pos.Row pos.Col (GetPieceForPlayer player)) = _
    exact countNonEmpty_setCell gs.Board pos.Row pos.Col (GetPieceForPlayer player)
      hb.1 hb.2.1 hb.2.2.1 hb.2.2.2 (isEmptyPosition_empty gs pos hv he) hpiece

/-- Claim C8: in every state reachable from the fresh state by accepted
moves, the move list length equals the number of non-empty cells; each
accepted move appends exactly one record, whose sequence number is one more
than the number of moves before it, and places exactly one stone on a
previously empty cell, leaving every other cell — in particular every
occupied cell — unchanged. -/
theorem moves_equal_stones :
    (∀ gs : GameState, Reachable gs → gs.Moves.length = countNonEmpty gs.Board) ∧
    (∀ (gs : GameState) (s : String) (gs' : GameState), gs.MakeMove s = (none, gs') →
      (∃ m : Move, gs'.Moves = gs.Moves ++ [m] ∧ m.moveNum = gs.Moves.length + 1) ∧
      (∃ i j : Fin 15, gs.Board i j = '+' ∧ gs'.Board i j ≠ '+' ∧
        ∀ i' j' : Fin 15, ¬(i' = i ∧ j' = j) → gs'.Board i' j' = gs.Board i' j')) := by
  constructor
  · intro gs hreach
    induction hreach with
    | base =>
      show (0 : Nat) = countNonEmpty NewGameState.Board
      unfold countNonEmpty
      rw [Finset.filter_false_of_mem (fun p _ => by simp [NewGameState])]
      simp
    | step gs s gs' hr hmk ih =>
      have hc := makeMove_ok_counts gs s gs' hmk
      omega
  · intro gs s gs' h
    obtain ⟨hover, position, player, pos, hval, hturn, hpos, hv, he, hgs'⟩ :=
      makeMove_ok_shape gs s gs' h
    subst hgs'
    have hb := isValidPosition_bounds gs pos hv
    have hi : pos.Row.toNat < 15 := by omega
    have hj : pos.Col.toNat < 15 := by omega
    have hpiece : GetPieceForPlayer player ≠ '+' := by
      rcases validateAndParseMove_ok_player s position player hval with h1 | h1 <;>
        rw [h1] <;> decide
    constructor
    · refine ⟨⟨player, position, gs.Moves.length + 1, GetPieceForPlayer player⟩, ?_, rfl⟩
      rw [applyAccepted_Moves]
      simp [placeStone]
    · refine ⟨⟨pos.Row.toNat, hi⟩, ⟨pos.Col.toNat, hj⟩, ?_, ?_, ?_⟩
      · have := isEmptyPosition_empty gs pos hv he
        unfold getCell at this
        rw [dif_pos ⟨hb.1, hb.2.1, hb.2.2.1, hb.2.2.2⟩] at this
        exact this
      · rw [applyAccepted_Board]
        show setCell gs.Board pos.Row pos.Col (GetPieceForPlayer player) _ _ ≠ '+'
        unfold setCell
        rw [if_pos ⟨by show (pos.Row.toNat : Int) = pos.Row; omega,
                    by show (pos.Col.toNat : Int) = pos.Col; omega⟩]
        exact hpiece
      · intro i' j' hne
        rw [applyAccepted_Board]
        show setCell gs.Board pos.Row pos.Col (GetPieceForPlayer player) i' j' = _
        unfold setCell
        rw [if_neg]
        intro hcon
        apply hne
        have h1 := hcon.1
        have h2 := hcon.2
        constructor
        · apply Fin.ext
          show (i' : Nat) = pos.Row.toNat
          omega
        · apply Fin.ext
          show (j' : Nat) = pos.Col.toNat
          omega

/-- Witness for C8: the fresh state satisfies the invariant, and the first
accepted move appends record number 1. -/
theorem moves_equal_stones_witness :
    NewGameState.Moves.length = countNonEmpty NewGameState.Board ∧
    NewGameState.MakeMove "A-01-O" = (none, (NewGameState.MakeMove "A-01-O").2) ∧
    (∃ m : Move, (NewGameState.MakeMove "A-01-O").2.Moves = NewGameState.Moves ++ [m] ∧
      m.moveNum = NewGameState.Moves.length + 1) := by
  have h1 : (NewGameState.MakeMove "A-01-O").1 = none := by rfl
  have h : NewGameState.MakeMove "A-01-O" = (none, (NewGameState.MakeMove "A-01-O").2) := by
    rw [← h1]
  exact ⟨moves_equal_stones.1 NewGameState Reachable.base, h,
         (moves_equal_stones.2 NewGameState "A-01-O" _ h).1⟩

/-! ## Claim C3: `CheckWin` is exactly the five-through-position test -/

/-- Soundness of the directional count: every counted step, starting from
the scan origin, is an in-bounds cell holding `piece`. -/
theorem countAux_sound (b : Board) (piece : Char) (dr dc : Int) :
    ∀ (fuel : Nat) (r0 c0 : Int) (k : Nat),
      k < countAux b piece dr dc fuel r0 c0 →
      (0 ≤ r0 + k * dr ∧ r0 + k * dr < 15 ∧ 0 ≤ c0 + k * dc ∧ c0 + k * dc < 15) ∧
      getCell b (r0 + k * dr) (c0 + k * dc) = piece := by
  intro fuel
  induction fuel with
  | zero => intro r0 c0 k hk; simp [countAux] at hk
  | succ fuel ih =>
    intro r0 c0 k hk
    unfold countAux at hk
    split at hk
    case isFalse => simp at hk
    case isTrue hin =>
      split at hk
      case isFalse => simp at hk
      case isTrue hmatch =>
        cases k with
        | zero => simpa using ⟨hin, hmatch⟩
        | succ m =>
          have hm : m < countAux b piece dr dc fuel (r0 + dr) (c0 + dc) := by omega
          have hrec := ih (r0 + dr) (c0 + dc) m hm
          have e1 : r0 + dr + (m : Int) * dr = r0 + ((m : Nat) + 1 : Nat) * dr := by
            push_cast; ring
          have e2 : c0 + dc + (m : Int) * dc = c0 + ((m : Nat) + 1 : Nat) * dc := by
            push_cast; ring
          rw [e1, e2] at hrec
          exact hrec

/-- Completeness of the directional count: a run of `n` in-bounds matching
cells from the scan origin forces a count of at least `n`, given fuel. -/
theorem countAux_complete (b : Board) (piece : Char) (dr dc : Int) :
    ∀ (fuel : Nat) (r0 c0 : Int) (n : Nat),
      (∀ k : Nat, k < n →
        (0 ≤ r0 + k * dr ∧ r0 + k * dr < 15 ∧ 0 ≤ c0 + k * dc ∧ c0 + k * dc < 15) ∧
        getCell b (r0 + k * dr) (c0 + k * dc) = piece) →
      n ≤ fuel → n ≤ countAux b piece dr dc fuel r0 c0 := by
  intro fuel
  induction fuel with
  | zero => intro r0 c0 n _ hn; omega
  | succ fuel ih =>
    intro r0 c0 n hcells hn
    cases n with
    | zero => exact Nat.zero_le _
    | succ m =>
      have h0 := hcells 0 (by omega)
      simp only [Nat.cast_zero, zero_mul, add_zero] at h0
      unfold countAux
      rw [if_pos h0.1, if_pos h0.2]
      have hrest : m ≤ countAux b piece dr dc fuel (r0 + dr) (c0 + dc) := by
        apply ih
        · intro k hk
          have hc := hcells (k + 1) (by omega)
          have e1 : r0 + ((k : Nat) + 1 : Nat) * dr = r0 + dr + (k : Int) * dr := by
            push_cast; ring
          have e2 : c0 + ((k : Nat) + 1 : Nat) * dc = c0 + dc + (k : Int) * dc := by
            push_cast; ring
          rw [e1, e2] at hc
          exact hc
        · omega
      omega

/-- The cells certified by `countInOneDirection`, indexed from 1 at the
first cell beyond the played position. -/
theorem countInOneDirection_cells (gs : GameState) (pos : Position) (piece : Char)
    (dr dc : Int) (i : Nat) (h1 : 1 ≤ i)
    (h2 : i ≤ gs.countInOneDirection pos piece dr dc) :
    (0 ≤ pos.Row + i * dr ∧ pos.Row + i * dr < 15 ∧
     0 ≤ pos.Col + i * dc ∧ pos.Col + i * dc < 15) ∧
    getCell gs.Board (pos.Row + i * dr) (pos.Col + i * dc) = piece := by
  have hk : i - 1 < gs.countInOneDirection pos piece dr dc := by omega
  unfold GameState.countInOneDirection at hk
  have hrec := countAux_sound gs.Board piece dr dc 15 (pos.Row + dr) (pos.Col + dc) (i - 1) hk
  have e1 : pos.Row + dr + ((i - 1 : Nat) : Int) * dr = pos.Row + (i : Int) * dr := by
    have : ((i - 1 : Nat) : Int) = (i : Int) - 1 := by omega
    rw [this]; ring
  have e2 : pos.Col + dc + ((i - 1 : Nat) : Int) * dc = pos.Col + (i : Int) * dc := by
    have : ((i - 1 : Nat) : Int) = (i : Int) - 1 := by omega
    rw [this]; ring
  rw [e1, e2] at hrec
  exact hrec

/-- A run of `a` in-bounds matching cells beyond the position forces
`countInOneDirection` to reach at least `a` (fuel 15 suffices). -/
theorem countInOneDirection_ge (gs : GameState) (pos : Position) (piece : Char)
    (dr dc : Int) (a : Nat)
    (hcells : ∀ i : Nat, 1 ≤ i → i ≤ a →
      (0 ≤ pos.Row + i * dr ∧ pos.Row + i * dr < 15 ∧
       0 ≤ pos.Col + i * dc ∧ pos.Col + i * dc < 15) ∧
      getCell gs.Board (pos.Row + i * dr) (pos.Col + i * dc) = piece)
    (ha : a ≤ 15) :
    a ≤ gs.countInOneDirection pos piece dr dc := by
  unfold GameState.countInOneDirection
  apply countAux_complete gs.Board piece dr dc 15 (pos.Row + dr) (pos.Col + dc) a _ ha
  intro k hk
  have hc := hcells (k + 1) (by omega) (by omega)
  have e1 : pos.Row + ((k : Nat) + 1 : Nat) * dr = pos.Row + dr + (k : Int) * dr := by
    push_cast; ring
  have e2 : pos.Col + ((k : Nat) + 1 : Nat) * dc = pos.Col + dc + (k : Int) * dc := by
    push_cast; ring
  rw [e1, e2] at hc
  exact hc

/-- Modelled on the claim's wording: on some one of the four axes there are
`a` consecutive matching in-bounds cells beyond the position one way and `b`
the opposite way, the placed position itself counting as 1, for a total of at
least five.  (The position's own cell is counted unconditionally, exactly as
`CheckWin` counts it.) -/
def FiveThroughPosition (bd : Board) (pos : Position) (piece : Char) : Prop :=
  ∃ d ∈ directions, ∃ a b : Nat,
    5 ≤ 1 + a + b ∧
    (∀ i : Nat, 1 ≤ i → i ≤ a →
      (0 ≤ pos.Row + i * d.1 ∧ pos.Row + i * d.1 < 15 ∧
       0 ≤ pos.Col + i * d.2 ∧ pos.Col + i * d.2 < 15) ∧
      getCell bd (pos.Row + i * d.1) (pos.Col + i * d.2) = piece) ∧
    (∀ i : Nat, 1 ≤ i → i ≤ b →
      (0 ≤ pos.Row + i * (-d.1) ∧ pos.Row + i * (-d.1) < 15 ∧
       0 ≤ pos.Col + i * (-d.2) ∧ pos.Col + i * (-d.2) < 15) ∧
      getCell bd (pos.Row + i * (-d.1)) (pos.Col + i * (-d.2)) = piece)

/-- Claim C3: for an in-bounds position, `CheckWin` returns `true` exactly
when, on at least one of the four axes, the consecutive run through the
position (the position counting as 1, stopping at the first non-matching
cell or edge, runs of 6 or more included) reaches five; counts are never
combined across axes. -/
theorem checkWin_iff_five_through (gs : GameState) (pos : Position) (player : Player)
    (h : gs.IsValidPosition pos = true) :
    gs.CheckWin pos player = true ↔
      FiveThroughPosition gs.Board pos (GetPieceForPlayer player) := by
  have hb := isValidPosition_bounds gs pos h
  constructor
  · intro hc
    unfold GameState.CheckWin at hc
    rw [List.any_eq_true] at hc
    obtain ⟨d, hd, hcount⟩ := hc
    rw [decide_eq_true_eq] at hcount
    unfold GameState.countInDirection at hcount
    refine ⟨d, hd, gs.countInOneDirection pos (GetPieceForPlayer player) d.1 d.2,
           gs.countInOneDirection pos (GetPieceForPlayer player) (-d.1) (-d.2), by omega,
           ?_, ?_⟩
    · intro i h1 h2
      exact countInOneDirection_cells gs pos (GetPieceForPlayer player) d.1 d.2 i h1 h2
    · intro i h1 h2
      exact countInOneDirection_cells gs pos (GetPieceForPlayer player) (-d.1) (-d.2) i h1 h2
  · intro hspec
    obtain ⟨d, hd, a, b, htot, hfwd, hbwd⟩ := hspec
    unfold GameState.CheckWin
    rw [List.any_eq_true]
    refine ⟨d, hd, ?_⟩
    rw [decide_eq_true_eq]
    unfold GameState.countInDirection
    have hafifteen : a ≤ 15 := by
      rcases Nat.eq_zero_or_pos a with ha | ha
      · omega
      · have hcell := (hfwd a ha (le_refl a)).1
        simp only [directions, List.mem_cons, List.not_mem_nil, or_false] at hd
        rcases hd with rfl | rfl | rfl | rfl <;> (simp only [] at hcell; omega)
    have hbfifteen : b ≤ 15 := by
      rcases Nat.eq_zero_or_pos b with hb15 | hb15
      · omega
      · have hcell := (hbwd b hb15 (le_refl b)).1
        simp only [directions, List.mem_cons, List.not_mem_nil, or_false] at hd
        rcases hd with rfl | rfl | rfl | rfl <;> (simp only [] at hcell; omega)
    have hf := countInOneDirection_ge gs pos (GetPieceForPlayer player) d.1 d.2 a hfwd hafifteen
    have hg := countInOneDirection_ge gs pos (GetPieceForPlayer player) (-d.1) (-d.2) b hbwd
      hbfifteen
    omega

/-- Witness for C3: the five-through test at the winning position of
`staleState` after the winning move. -/
theorem checkWin_iff_five_through_witness :
    ((staleState.MakeMove "E-01-O").2.IsValidPosition ⟨0, 4⟩ = true) ∧
    ((staleState.MakeMove "E-01-O").2.CheckWin ⟨0, 4⟩ PlayerWhite = true ↔
      FiveThroughPosition (staleState.MakeMove "E-01-O").2.Board ⟨0, 4⟩
        (GetPieceForPlayer PlayerWhite)) :=
  ⟨by decide, checkWin_iff_five_through _ _ _ (by decide)⟩

/-! ## Claim C7: parsing inverts formatting -/

/-- The round trip on the 225 in-range coordinate pairs, checked by
evaluation. -/
theorem parse_format_fin (i j : Fin 15) :
    ParsePosition (FormatPosition ⟨((i : Nat) : Int), ((j : Nat) : Int)⟩) =
      .ok ⟨((i : Nat) : Int), ((j : Nat) : Int)⟩ := by
  revert i j
  decide

/-- Claim C7: for every position with row and column in `[0, 14]`,
`ParsePosition (FormatPosition p)` succeeds and returns exactly `p`. -/
theorem parse_format_roundtrip (p : Position)
    (hr : 0 ≤ p.Row ∧ p.Row ≤ 14) (hc : 0 ≤ p.Col ∧ p.Col ≤ 14) :
    ParsePosition (FormatPosition p) = .ok p := by
  have hi : p.Row.toNat < 15 := by omega
  have hj : p.Col.toNat < 15 := by omega
  have hp : p = ⟨(((⟨p.Row.toNat, hi⟩ : Fin 15) : Nat) : Int),
                 (((⟨p.Col.toNat, hj⟩ : Fin 15) : Nat) : Int)⟩ := by
    obtain ⟨r, c⟩ := p
    have h1 : 0 ≤ r := hr.1
    have h2 : 0 ≤ c := hc.1
    simp only [Position.mk.injEq]
    constructor
    · show r = (r.toNat : Int)
      omega
    · show c = (c.toNat : Int)
      omega
  rw [hp]
  exact parse_format_fin ⟨p.Row.toNat, hi⟩ ⟨p.Col.toNat, hj⟩

/-- Witness for C7: the centre position `H-08`. -/
theorem parse_format_roundtrip_witness :
    (0 ≤ (7 : Int) ∧ (7 : Int) ≤ 14) ∧
    ParsePosition (FormatPosition ⟨7, 7⟩) = .ok ⟨7, 7⟩ :=
  ⟨by decide, parse_format_roundtrip ⟨7, 7⟩ (by decide) (by decide)⟩

/-! ## Claim C4 (corrected): what `ParsePosition` rejects -/

/-- `splitHyphen` never returns an empty list of segments. -/
theorem splitHyphen_ne_nil (l : List Char) : splitHyphen l ≠ [] := by
  induction l with
  | nil => simp [splitHyphen]
  | cons c rest ih =>
    unfold splitHyphen
    split
    · simp
    · split <;> simp

/-- A one-segment split result is the hyphen-free input itself. -/
theorem splitHyphen_eq_one (l b : List Char) (h : splitHyphen l = [b]) :
    l = b ∧ '-' ∉ b := by
  induction l generalizing b with
  | nil =>
    simp only [splitHyphen] at h
    injection h with h1
    subst h1
    simp
  | cons c rest ih =>
    unfold splitHyphen at h
    split at h
    case isTrue hc =>
      injection h with h1 h2
      exact absurd h2 (splitHyphen_ne_nil rest)
    case isFalse hc =>
      split at h
      case h_1 p ps hrest =>
        injection h with h1 h2
        rw [h2] at hrest
        obtain ⟨he, hm⟩ := ih p hrest
        subst he
        subst h1
        refine ⟨rfl, ?_⟩
        simp only [List.mem_cons, not_or]
        exact ⟨fun hh => hc hh.symm, hm⟩
      case h_2 hrest => exact absurd hrest (splitHyphen_ne_nil rest)

/-- A two-segment split result: the input is the two hyphen-free segments
joined by one hyphen. -/
theorem splitHyphen_eq_two (l a b : List Char) (h : splitHyphen l = [a, b]) :
    l = a ++ '-' :: b ∧ '-' ∉ a ∧ '-' ∉ b := by
  induction l generalizing a with
  | nil => simp [splitHyphen] at h
  | cons c rest ih =>
    unfold splitHyphen at h
    split at h
    case isTrue hc =>
      injection h with h1 h2
      obtain ⟨he, hm⟩ := splitHyphen_eq_one rest b h2
      subst he
      subst hc
      rw [← h1]
      simp [hm]
    case isFalse hc =>
      split at h
      case h_1 p ps hrest =>
        injection h with h1 h2
        rw [h2] at hrest
        obtain ⟨he, hma, hmb⟩ := ih p hrest
        subst he
        subst h1
        refine ⟨rfl, ?_, hmb⟩
        simp only [List.mem_cons, not_or]
        exact ⟨fun hh => hc hh.symm, hma⟩
      case h_2 hrest => exact absurd hrest (splitHyphen_ne_nil rest)

/-- Every character encodes to at least one byte. -/
theorem charUtf8_len_pos (c : Char) : 1 ≤ (charUtf8 c).length := by
  simp only [charUtf8]
  split_ifs <;> simp

/-- A two-byte string is two one-byte characters or one two-byte character. -/
theorem utf8Len_two_cases (l : List Char) (h : utf8Len l = 2) :
    (∃ r1 r2, l = [r1, r2] ∧ (charUtf8 r1).length = 1 ∧ (charUtf8 r2).length = 1) ∨
    (∃ r, l = [r] ∧ (charUtf8 r).length = 2) := by
  match l with
  | [] => simp [utf8Len, listBytes] at h
  | [r] =>
    right
    refine ⟨r, rfl, ?_⟩
    simpa [utf8Len, listBytes] using h
  | [r1, r2] =>
    left
    refine ⟨r1, r2, rfl, ?_, ?_⟩ <;>
      ( have h1 := charUtf8_len_pos r1
        have h2 := charUtf8_len_pos r2
        simp [utf8Len, listBytes] at h
        omega )
  | r1 :: r2 :: r3 :: rest =>
    exfalso
    have h1 := charUtf8_len_pos r1
    have h2 := charUtf8_len_pos r2
    have h3 := charUtf8_len_pos r3
    simp [utf8Len, listBytes] at h
    omega

/-- A multi-byte character is none of the ASCII characters the row scan
reacts to, so a single multi-byte character never scans as a row. -/
theorem scanRow2_multibyte (r : Char) (h : (charUtf8 r).length = 2) :
    scanRow2 [r] = none := by
  have hge : 128 ≤ r.toNat := by
    by_contra hlt
    push_neg at hlt
    simp only [charUtf8] at h
    rw [if_pos hlt] at h
    simp at h
  have hnl : r ≠ '\n' := fun he => absurd (he ▸ hge) (by decide)
  have hcr : r ≠ '\r' := fun he => absurd (he ▸ hge) (by decide)
  have hplus : r ≠ '+' := fun he => absurd (he ▸ hge) (by decide)
  have hminus : r ≠ '-' := fun he => absurd (he ▸ hge) (by decide)
  have hdig : isDigitChar r = false := by
    simp only [isDigitChar, Bool.and_eq_false_iff, decide_eq_false_iff_not]
    right
    omega
  unfold scanRow2 scanSpaces
  rw [if_neg hnl, if_neg hcr]
  by_cases hsp : fmtIsSpace r
  · rw [if_pos hsp]
    rfl
  · rw [if_neg hsp]
    simp only [scanIntPart, if_neg hplus, if_neg hminus, scanDigits, hdig]
    rfl

/-- A digit is not one of the specially treated scan characters. -/
theorem isDigitChar_ne (c : Char) (h : isDigitChar c = true) :
    c ≠ '\n' ∧ c ≠ '\r' ∧ c ≠ '+' ∧ c ≠ '-' :=
  ⟨fun he => absurd (he ▸ h) (by decide), fun he => absurd (he ▸ h) (by decide),
   fun he => absurd (he ▸ h) (by decide), fun he => absurd (he ▸ h) (by decide)⟩

/-- A digit is not white space. -/
theorem isDigitChar_not_space (c : Char) (h : isDigitChar c = true) :
    fmtIsSpace c = false := by
  simp only [isDigitChar, Bool.and_eq_true, decide_eq_true_eq] at h
  cases hb : fmtIsSpace c
  · rfl
  · exfalso
    simp only [fmtIsSpace, Bool.or_eq_true, Bool.and_eq_true, decide_eq_true_eq] at hb
    omega

/-- Scanning a single character after the sign position: only a digit
scans, to its own value. -/
theorem scanIntPart_single (r : Char) :
    scanIntPart [r] = (if isDigitChar r then some ((digitVal r : Int)) else none) := by
  by_cases hd : isDigitChar r
  · obtain ⟨_, _, hp, hm⟩ := isDigitChar_ne r hd
    simp [scanIntPart, scanDigits, hd, hp, hm]
  · simp only [scanIntPart]
    by_cases hm : r = '-'
    · rw [if_pos hm, if_neg hd]
      rfl
    · by_cases hq : r = '+'
      · rw [if_neg hm, if_pos hq, if_neg hd]
        rfl
      · rw [if_neg hm, if_neg hq, if_neg hd]
        simp only [scanDigits]
        rw [if_neg (by simpa using hd)]

/-- The full scan of a single-character field: only a digit scans. -/
theorem scanRow2_single (r : Char) :
    scanRow2 [r] = (if isDigitChar r then some ((digitVal r : Int)) else none) := by
  by_cases hn : r = '\n'
  · subst hn; decide
  by_cases hr : r = '\r'
  · subst hr; decide
  unfold scanRow2 scanSpaces
  rw [if_neg hn, if_neg hr]
  by_cases hs : fmtIsSpace r = true
  · rw [if_pos hs]
    have hd : isDigitChar r = false := by
      cases hd : isDigitChar r
      · rfl
      · rw [isDigitChar_not_space r hd] at hs; cases hs
    simp [scanSpaces, scanIntPart, hd]
  · rw [if_neg hs]
    show scanIntPart [r] = _
    rw [scanIntPart_single r]

/-- Behaviour of Go's lenient `%02d` row scan on a two-character field,
written as a direct case analysis of the two characters: a leading digit
scans (a trailing non-digit is simply not consumed), a leading sign needs a
digit after it, leading white space other than a newline (or a carriage
return directly before a newline) is skipped, and anything else fails. -/
def lenientRow (r1 r2 : Char) : Option Int :=
  if isDigitChar r1 then
    some (if isDigitChar r2 then 10 * (digitVal r1 : Int) + digitVal r2 else (digitVal r1 : Int))
  else if r1 = '-' then
    if isDigitChar r2 then some (-(digitVal r2 : Int)) else none
  else if r1 = '+' then
    if isDigitChar r2 then some ((digitVal r2 : Int)) else none
  else if fmtIsSpace r1 = true ∧ r1 ≠ '\n' ∧ ¬(r1 = '\r' ∧ r2 = '\n') then
    if isDigitChar r2 then some ((digitVal r2 : Int)) else none
  else none

/-- The transcribed `fmt` scan and the case-analysis form agree on every
two-character row field. -/
theorem scanRow2_eq_lenientRow (r1 r2 : Char) : scanRow2 [r1, r2] = lenientRow r1 r2 := by
  by_cases hd1 : isDigitChar r1
  · obtain ⟨hn, hr, hp, hm⟩ := isDigitChar_ne r1 hd1
    have hs := isDigitChar_not_space r1 hd1
    unfold scanRow2 scanSpaces
    rw [if_neg hn, if_neg hr, if_neg (by simp [hs])]
    show scanIntPart [r1, r2] = _
    simp only [scanIntPart]
    rw [if_neg hm, if_neg hp]
    simp only [scanDigits]
    rw [if_pos hd1]
    unfold lenientRow
    rw [if_pos hd1]
    by_cases hd2 : isDigitChar r2
    · rw [if_pos hd2]
      simp only [List.takeWhile, hd2, List.foldl]
      congr 1
      simp
    · rw [if_neg hd2]
      have hd2f : isDigitChar r2 = false := by simpa using hd2
      simp only [List.takeWhile, hd2f, Bool.false_eq_true, List.foldl]
      congr 1
      simp
  · have hd1f : isDigitChar r1 = false := by simpa using hd1
    by_cases hn1 : r1 = '\n'
    · subst hn1
      have e2 : lenientRow '\n' r2 = none := by
        unfold lenientRow
        rw [if_neg (show ¬(isDigitChar '\n' = true) by decide),
          if_neg (show ¬('\n' = '-') by decide),
          if_neg (show ¬('\n' = '+') by decide),
          if_neg (show ¬(fmtIsSpace '\n' = true ∧ '\n' ≠ '\n' ∧
            ¬('\n' = '\r' ∧ r2 = '\n')) from fun hcon => hcon.2.1 rfl)]
      rw [e2]
      rfl
    by_cases hr1 : r1 = '\r'
    · subst hr1
      by_cases hn2 : r2 = '\n'
      · subst hn2; decide
      · unfold scanRow2 scanSpaces
        rw [if_neg (show ¬('\r' = '\n') by decide), if_pos rfl,
          if_neg (show ¬(([r2].head?) = some '\n') from by simp [hn2])]
        show scanRow2 [r2] = _
        rw [scanRow2_single]
        unfold lenientRow
        rw [if_neg (show ¬(isDigitChar '\r' = true) by decide),
          if_neg (show ¬('\r' = '-') by decide),
          if_neg (show ¬('\r' = '+') by decide),
          if_pos (show fmtIsSpace '\r' = true ∧ '\r' ≠ '\n' ∧
            ¬('\r' = '\r' ∧ r2 = '\n') from ⟨by decide, by decide, fun hcon => hn2 hcon.2⟩)]
    by_cases hs1 : fmtIsSpace r1 = true
    · unfold scanRow2 scanSpaces
      rw [if_neg hn1, if_neg hr1, if_pos hs1]
      show scanRow2 [r2] = _
      rw [scanRow2_single]
      unfold lenientRow
      rw [if_neg (show ¬(isDigitChar r1 = true) from hd1),
        if_neg (show ¬(r1 = '-') from fun he => absurd (he ▸ hs1) (by decide)),
        if_neg (show ¬(r1 = '+') from fun he => absurd (he ▸ hs1) (by decide)),
        if_pos (show fmtIsSpace r1 = true ∧ r1 ≠ '\n' ∧ ¬(r1 = '\r' ∧ r2 = '\n') from
          ⟨hs1, hn1, fun hcon => hr1 hcon.1⟩)]
    · unfold scanRow2 scanSpaces
      rw [if_neg hn1, if_neg hr1, if_neg hs1]
      show scanIntPart [r1, r2] = _
      simp only [scanIntPart]
      unfold lenientRow
      rw [if_neg (show ¬(isDigitChar r1 = true) from hd1)]
      by_cases hm1 : r1 = '-'
      · rw [if_pos hm1, if_pos hm1]
        simp only [scanDigits]
        by_cases hd2 : isDigitChar r2
        · rw [if_pos hd2, if_pos hd2]
          simp only [List.takeWhile, List.foldl]
          congr 1
          simp
        · rw [if_neg hd2, if_neg hd2]
      · rw [if_neg hm1, if_neg hm1]
        by_cases hp1 : r1 = '+'
        · rw [if_pos hp1, if_pos hp1]
          simp only [scanDigits]
          by_cases hd2 : isDigitChar r2
          · rw [if_pos hd2, if_pos hd2]
            simp only [List.takeWhile, List.foldl]
            congr 1
            simp
          · rw [if_neg hd2, if_neg hd2]
        · rw [if_neg hp1, if_neg hp1]
          simp only [scanDigits]
          rw [if_neg (show ¬(isDigitChar r1 = true) from hd1),
            if_neg (show ¬(fmtIsSpace r1 = true ∧ r1 ≠ '\n' ∧ ¬(r1 = '\r' ∧ r2 = '\n')) from
              fun hcon => hs1 hcon.1)]

/-- Modelled from the claim's words: exactly one uppercase letter `A`–`O`, a
hyphen, and exactly two decimal digits forming a number in `01`–`15`. -/
def strictPositionText (l : List Char) : Bool :=
  match l with
  | [c, '-', d1, d2] =>
    decide (65 ≤ c.toNat) && decide (c.toNat ≤ 79) && isDigitChar d1 && isDigitChar d2 &&
    decide (1 ≤ 10 * digitVal d1 + digitVal d2) && decide (10 * digitVal d1 + digitVal d2 ≤ 15)
  | _ => false

/-- The amended acceptance form: one uppercase letter `A`–`O`, a hyphen, and
a two-byte hyphen-free row field whose lenient scan (leading white space
except newline skipped, optional sign, scan stops at the first non-digit)
yields a number in `1`–`15`. -/
def lenientPositionText (l : List Char) : Bool :=
  match l with
  | [c, '-', r1, r2] =>
    decide (65 ≤ c.toNat) && decide (c.toNat ≤ 79) &&
    decide (r1 ≠ '-') && decide (r2 ≠ '-') &&
    decide ((charUtf8 r1).length = 1) && decide ((charUtf8 r2).length = 1) &&
    (match lenientRow r1 r2 with
     | some v => decide (1 ≤ v) && decide (v ≤ 15)
     | none => false)
  | _ => false

/-- Every string `ParsePosition` accepts has the lenient form. -/
theorem parsePosition_ok_form (s : String) (pos : Position)
    (h : ParsePosition s = .ok pos) : lenientPositionText s.data = true := by
  unfold ParsePosition at h
  split at h
  case h_2 => exact absurd h (by simp)
  case h_1 colS rowS hsplit =>
    obtain ⟨hdata, hmcol, hmrow⟩ := splitHyphen_eq_two _ _ _ hsplit
    split at h
    case h_2 => exact absurd h (by simp)
    case h_1 c =>
      split at h
      case isFalse => exact absurd h (by simp)
      case isTrue hcol =>
        split at h
        case isTrue => exact absurd h (by simp)
        case isFalse hlen2 =>
          split at h
          case h_1 => exact absurd h (by simp)
          case h_2 row hscan =>
            split at h
            case isTrue => exact absurd h (by simp)
            case isFalse hrange =>
              push_neg at hrange
              have hlen : utf8Len rowS = 2 := not_not.mp hlen2
              rcases utf8Len_two_cases rowS hlen with ⟨r1, r2, hrw, hs1, hs2⟩ | ⟨r, hrw, hsz⟩
              · subst hrw
                rw [scanRow2_eq_lenientRow] at hscan
                have hm1 : r1 ≠ '-' := by
                  intro he
                  exact hmrow (by rw [← he]; exact List.mem_cons_self _ _)
                have hm2 : r2 ≠ '-' := by
                  intro he
                  exact hmrow (by rw [← he]; simp)
                rw [hdata]
                show lenientPositionText [c, '-', r1, r2] = true
                simp only [lenientPositionText, hscan, Bool.and_eq_true, decide_eq_true_eq]
                exact ⟨⟨⟨⟨⟨⟨hcol.1, hcol.2⟩, hm1⟩, hm2⟩, hs1⟩, hs2⟩,
                  by simpa using hrange.1, by simpa using hrange.2⟩
              · subst hrw
                rw [scanRow2_multibyte r hsz] at hscan
                cases hscan

/-- Counterexample to C4 as stated: `"A-1x"` has a non-digit row character
yet `ParsePosition` accepts it (Go's `%02d` scan stops at the `x` and reads
row 1), contradicting the claimed rejection of non-digit row characters. -/
theorem parsePosition_strict_counterexample :
    strictPositionText "A-1x".data = false ∧ ParsePosition "A-1x" = .ok ⟨0, 0⟩ :=
  ⟨by decide, by rfl⟩

/-- Claim C4 as amended: `ParsePosition` returns an error whenever the input
is not one uppercase letter `A`–`O`, a hyphen, and a two-byte hyphen-free
row field that scans, under Go's lenient `%02d` scan (leading white space
except newline skipped, optional sign, scanning stops at the first
non-digit), to a number in `1`–`15`.  In particular wrong letter range,
lowercase letters, wrong byte count, a missing separator, and extra tokens
are still rejected; but a row field such as `"1x"`, `"+5"` or `" 5"` is
accepted. -/
theorem parsePosition_rejects_nonlenient (s : String)
    (h : lenientPositionText s.data = false) :
    ∃ e, ParsePosition s = .error e := by
  cases hps : ParsePosition s with
  | error e => exact ⟨e, rfl⟩
  | ok pos => exact absurd (parsePosition_ok_form s pos hps) (by simp [h])

/-- Witness for the amended C4: `"A-x5"` is not of the lenient form and is
rejected. -/
theorem parsePosition_rejects_nonlenient_witness :
    lenientPositionText "A-x5".data = false ∧ ∃ e, ParsePosition "A-x5" = .error e :=
  ⟨by decide, parsePosition_rejects_nonlenient "A-x5" (by decide)⟩

end Gomoku
